import Mathlib

/-!
Verification development for the Note-app mobile synchronization engine
(`mobile/src/services/SyncService.js` together with the storage layers
`InMemoryStorage` and the SQLite-backed `OfflineStorage` in
`mobile/src/services/OfflineStorage.js`).

The JavaScript services are embedded shallowly: the mutable singleton state
becomes an explicit state record, every storage method becomes a pure
function on that record, and each network call is resolved through an
explicit environment describing the server's answer.  Timestamps are
modelled as naturals; a JS object field that may be absent is an `Option`,
and a missing boolean field is `false` (falsy).
-/

namespace NoteApp

/-- A note object as it circulates in the mobile client.  `syncStatus` and
`deletedAt` are `Option`s because plain JS note objects may simply lack
them; `hasConflict`, `isDeleted` and `localOnly` are the flags maintained
by `InMemoryStorage`. -/
structure Note where
  id : String
  title : String := ""
  content : String := ""
  version : Nat := 0
  createdAt : Nat := 0
  updatedAt : Nat := 0
  deletedAt : Option Nat := none
  syncStatus : Option String := none
  hasConflict : Bool := false
  isDeleted : Bool := false
  localOnly : Bool := false
  deriving DecidableEq

/-- A record of the `sync_queue` table (`OfflineStorage.createTables`), in
the shape `processSyncQueue` consumes: `data` is the JSON payload already
parsed back into a note object. -/
structure SyncQueueItem where
  id : Nat
  operation_type : String
  note_id : String
  data : Note
  timestamp : Nat
  retry_count : Nat := 0
  status : String := "pending"
  lastAttempt : Nat := 0
  deriving DecidableEq

/-- Insertion step of the sort used to model SQL `ORDER BY`. -/
def insertLe {α : Type} (le : α → α → Bool) (x : α) : List α → List α
  | [] => [x]
  | y :: t => if le x y then x :: y :: t else y :: insertLe le x t

/-- Insertion sort used to model SQL `ORDER BY`. -/
def sortLe {α : Type} (le : α → α → Bool) : List α → List α
  | [] => []
  | x :: t => insertLe le x (sortLe le t)

namespace InMemoryStorage

/-- `getNoteById` (and `getNote`): `this.notes.find(n => n.id === noteId
&& !n.isDeleted)`. -/
def getNoteById : List Note → String → Option Note
  | [], _ => none
  | n :: t, i => if n.id = i ∧ n.isDeleted = false then some n else getNoteById t i

/-- Core of `saveNote`: `findIndex` on the id, assign in place when found,
`push` at the end otherwise. -/
def saveRec : List Note → Note → List Note
  | [], a => [a]
  | n :: t, a => if n.id = a.id then a :: t else n :: saveRec t a

/-- `saveNote(note, status)`: stores `{...note, localOnly: status ===
'pending'}`, replacing the first entry with the same id or appending. -/
def saveNote (notes : List Note) (note : Note) (status : String) : List Note :=
  saveRec notes { note with localOnly := status == "pending" }

/-- `markNoteConflicted`: sets `hasConflict = true` on the first entry with
the id (no change when absent). -/
def markNoteConflicted : List Note → String → List Note
  | [], _ => []
  | n :: t, i =>
    if n.id = i then { n with hasConflict := true } :: t
    else n :: markNoteConflicted t i

/-- `markNoteSynced`: sets `localOnly = false` on the first entry with the
id. -/
def markNoteSynced : List Note → String → List Note
  | [], _ => []
  | n :: t, i =>
    if n.id = i then { n with localOnly := false } :: t
    else n :: markNoteSynced t i

/-- `deleteNote`: soft-deletes the first entry with the id (sets
`isDeleted` and stamps `updatedAt`); throws (`none`) when the id is
absent. -/
def deleteNote : List Note → String → Nat → Option (List Note)
  | [], _, _ => none
  | n :: t, i, now =>
    if n.id = i then some ({ n with isDeleted := true, updatedAt := now } :: t)
    else (deleteNote t i now).map (n :: ·)

/-- `getAllNotes`: `this.notes.filter(note => !note.isDeleted)`. -/
def getAllNotes (notes : List Note) : List Note :=
  notes.filter (fun n => !n.isDeleted)

/-- `getSyncQueue`: returns a copy of the whole queue, no status filter. -/
def getSyncQueue (q : List SyncQueueItem) : List SyncQueueItem := q

/-- `markSyncItemFailed(itemId, retryCount)`: when the index is in range,
bumps `retry_count` to `retryCount + 1` and stamps `lastAttempt`; the item
keeps its status and stays in the queue. -/
def markSyncItemFailed (q : List SyncQueueItem) (idx : Nat) (retryCount : Nat)
    (now : Nat) : List SyncQueueItem :=
  match q[idx]? with
  | some it => q.set idx { it with retry_count := retryCount + 1, lastAttempt := now }
  | none => q

/-- `markSyncItemCompleted(itemId)`: `splice(itemId, 1)` when in range. -/
def markSyncItemCompleted (q : List SyncQueueItem) (idx : Nat) : List SyncQueueItem :=
  if idx < q.length then q.eraseIdx idx else q

end InMemoryStorage

namespace OfflineStorage

/-- Comparison for `ORDER BY timestamp ASC`. -/
def tsLe (a b : SyncQueueItem) : Bool := decide (a.timestamp ≤ b.timestamp)

/-- Comparison for `ORDER BY updated_at DESC`. -/
def updatedAtGe (a b : Note) : Bool := decide (b.updatedAt ≤ a.updatedAt)

/-- `getSyncQueue`: `SELECT * FROM sync_queue WHERE status = 'pending'
ORDER BY timestamp ASC`. -/
def getSyncQueue (q : List SyncQueueItem) : List SyncQueueItem :=
  sortLe tsLe (q.filter (fun it => it.status == "pending"))

/-- `markSyncItemFailed(id, retryCount)`: `UPDATE sync_queue SET status =
(retryCount >= 3 ? 'failed' : 'pending'), retry_count = retryCount + 1
WHERE id = ?`. -/
def markSyncItemFailed (q : List SyncQueueItem) (i : Nat) (retryCount : Nat) :
    List SyncQueueItem :=
  q.map fun it =>
    if it.id = i then
      { it with
        status := if 3 ≤ retryCount then "failed" else "pending",
        retry_count := retryCount + 1 }
    else it

/-- `markSyncItemCompleted(id)`: `UPDATE sync_queue SET status =
'completed' WHERE id = ?`. -/
def markSyncItemCompleted (q : List SyncQueueItem) (i : Nat) : List SyncQueueItem :=
  q.map fun it => if it.id = i then { it with status := "completed" } else it

/-- `getAllNotes(includeDeleted)`: `SELECT * FROM notes [WHERE deleted_at
IS NULL] ORDER BY updated_at DESC`. -/
def getAllNotes (notes : List Note) (includeDeleted : Bool) : List Note :=
  sortLe updatedAtGe
    (if includeDeleted then notes else notes.filter (fun n => n.deletedAt == none))

end OfflineStorage

namespace SyncService

/-- A network request issued by the service (axios calls and the socket
sync request). -/
inductive Request where
  | postNote (id title content : String)
  | putNote (id : String) (title content : String) (clientVersion : Nat)
  | deleteReq (id : String)
  | syncRequest (lastSyncTime : Nat)
  | httpGet (since : Nat)
  deriving DecidableEq

/-- The mutable state of the `SyncService`/`InMemoryStorage` singletons that
the sync operations read and write: the note store, the outbound queue
(with the AUTOINCREMENT counter), the checkpoint `lastSync`, and the
`isSyncing` / `isOnline` flags. -/
structure SyncState where
  notes : List Note := []
  queue : List SyncQueueItem := []
  nextQueueId : Nat := 0
  lastSync : Nat := 0
  isSyncing : Bool := false
  isOnline : Bool := true
  deriving DecidableEq

/-- Environment of one sync pass: whether the socket is connected, the
outcome of the HTTP delta request, which queue replays the server accepts,
and the local clock. -/
structure SyncEnv where
  socketConnected : Bool := false
  httpResult : Except Unit (List Note) := .ok []
  accept : SyncQueueItem → Bool := fun _ => true
  now : Nat := 0

/-- `addToSyncQueue(operationType, noteId, data)` following the
`OfflineStorage` queue contract: append a fresh `pending` record. -/
def addToSyncQueue (st : SyncState) (op : String) (noteId : String)
    (payload : Note) (now : Nat) : SyncState :=
  { st with
    queue := st.queue ++
      [{ id := st.nextQueueId, operation_type := op, note_id := noteId,
         data := payload, timestamp := now }],
    nextQueueId := st.nextQueueId + 1 }

/-- The axios call the `processSyncQueue` switch issues for a queue item;
`none` when the operation type falls through the switch. -/
def callOf (it : SyncQueueItem) : Option Request :=
  if it.operation_type = "create" then
    some (.postNote it.data.id it.data.title it.data.content)
  else if it.operation_type = "update" then
    some (.putNote it.note_id it.data.title it.data.content (it.data.version - 1))
  else if it.operation_type = "delete" then
    some (.deleteReq it.note_id)
  else none

/-- One iteration of the `processSyncQueue` loop: issue the call; on
success mark the note synced and the item completed, on a thrown/rejected
call mark the item failed; an unknown operation type issues no call and is
marked completed. -/
def processItem (accept : SyncQueueItem → Bool) (st : SyncState)
    (it : SyncQueueItem) : SyncState × List Request :=
  match callOf it with
  | none => ({ st with queue := OfflineStorage.markSyncItemCompleted st.queue it.id }, [])
  | some req =>
    if accept it then
      ({ st with
         notes := InMemoryStorage.markNoteSynced st.notes it.note_id,
         queue := OfflineStorage.markSyncItemCompleted st.queue it.id }, [req])
    else
      ({ st with queue := OfflineStorage.markSyncItemFailed st.queue it.id it.retry_count },
        [req])

/-- The `for (const item of queueItems)` loop of `processSyncQueue`,
threading the state and accumulating the trace of attempted calls. -/
def processFold (accept : SyncQueueItem → Bool) (p : SyncState × List Request) :
    List SyncQueueItem → SyncState × List Request
  | [] => p
  | it :: rest =>
    let r := processItem accept p.1 it
    processFold accept (r.1, p.2 ++ r.2) rest

/-- `processSyncQueue`: drain the pending queue snapshot (oldest first) and
replay each operation, continuing past failures.  Also returns the trace of
attempted server calls, in order. -/
def processSyncQueue (accept : SyncQueueItem → Bool) (st : SyncState) :
    SyncState × List Request :=
  processFold accept (st, []) (OfflineStorage.getSyncQueue st.queue)

/-- A `sync-response` payload: the notes and the reported sync time. -/
structure SyncData where
  notes : List Note := []
  syncTime : Option Nat := none
  deriving DecidableEq

/-- Loop body of `applySyncResponse`: insert unknown notes as `synced`,
overwrite notes without pending local changes, skip `pending` ones. -/
def applyStep (notes : List Note) (sn : Note) : List Note :=
  match InMemoryStorage.getNoteById notes sn.id with
  | none => InMemoryStorage.saveNote notes sn "synced"
  | some ln =>
    if ln.syncStatus ≠ some "pending" then InMemoryStorage.saveNote notes sn "synced"
    else notes

/-- The merge loop of `applySyncResponse` over all notes of the response. -/
def applyNotes (notes : List Note) (ns : List Note) : List Note :=
  ns.foldl applyStep notes

/-- `applySyncResponse(data)`: merge the notes, then advance the checkpoint
to `data.syncTime` when one is present. -/
def applySyncResponse (st : SyncState) (d : SyncData) : SyncState :=
  { st with
    notes := applyNotes st.notes d.notes,
    lastSync := match d.syncTime with | some t => t | none => st.lastSync }

/-- `handleSyncResponse`: the socket `sync-response` handler just applies
the response. -/
def handleSyncResponse (st : SyncState) (d : SyncData) : SyncState :=
  applySyncResponse st d

/-- `handleRemoteNoteUpdated`: live push of a remote update; save when
unknown or not pending, divert to `markNoteConflicted` when the local copy
is `pending`. -/
def handleRemoteNoteUpdated (notes : List Note) (remote : Note) : List Note :=
  match InMemoryStorage.getNoteById notes remote.id with
  | none => InMemoryStorage.saveNote notes remote "synced"
  | some ln =>
    if ln.syncStatus = some "pending" then InMemoryStorage.markNoteConflicted notes remote.id
    else InMemoryStorage.saveNote notes remote "synced"

/-- `performHttpSync(lastSyncTime)`: GET `/notes`; on success apply the
result as a sync response stamped with the local clock, on failure
rethrow. -/
def performHttpSync (env : SyncEnv) (st : SyncState) : Except Unit SyncState :=
  match env.httpResult with
  | .error e => .error e
  | .ok ns => .ok (applySyncResponse st { notes := ns, syncTime := some env.now })

/-- `performFullSync`: no-op unless online and not already syncing; then
process the queue, issue the delta request (socket emit, or HTTP fallback
whose failure is the only fatal error), and finally
`setLastSyncTime(new Date().toISOString())` — the local clock.  Returns the
final state and the trace of requests issued. -/
def performFullSync (env : SyncEnv) (st : SyncState) : SyncState × List Request :=
  if !st.isOnline || st.isSyncing then (st, [])
  else
    let r1 := processSyncQueue env.accept { st with isSyncing := true }
    let st1 := r1.1
    if env.socketConnected then
      ({ st1 with lastSync := env.now, isSyncing := false },
        r1.2 ++ [Request.syncRequest st1.lastSync])
    else
      match performHttpSync env st1 with
      | .error _ => ({ st1 with isSyncing := false }, r1.2 ++ [Request.httpGet st1.lastSync])
      | .ok st2 =>
        ({ st2 with lastSync := env.now, isSyncing := false },
          r1.2 ++ [Request.httpGet st1.lastSync])

/-- `forcSync`: the manual-refresh entry point just runs a full sync
pass. -/
def forcSync (env : SyncEnv) (st : SyncState) : SyncState × List Request :=
  performFullSync env st

/-- The `{title, content}` update objects the UI passes to `createNote` and
`updateNote`; a missing field leaves the stored one (object spread). -/
structure NoteUpdates where
  title : Option String := none
  content : Option String := none
  deriving DecidableEq

/-- `{...localNote, ...updates}`. -/
def applyUpdates (n : Note) (u : NoteUpdates) : Note :=
  { n with title := u.title.getD n.title, content := u.content.getD n.content }

/-- Server answer to the immediate PUT of `updateNote`. -/
inductive PutResult where
  | ok (serverNote : Note)
  | conflict409 (serverNote : Note)
  | netError

/-- The `updatedNote` object built by `updateNote`: `{...localNote,
...updates, updatedAt: now, version: localNote.version + 1}`. -/
def bumpedNote (ln : Note) (u : NoteUpdates) (now : Nat) : Note :=
  { applyUpdates ln u with updatedAt := now, version := ln.version + 1 }

/-- `updateNote(noteId, updates)`: throws when the note is unknown;
otherwise saves `{...localNote, ...updates, version: localNote.version+1}`
locally as `pending` first, then (online) PUTs with
`clientVersion = localNote.version`, handling 409 as a conflict and network
errors by enqueueing. -/
def updateNote (isOnline : Bool) (res : PutResult) (now : Nat) (st : SyncState)
    (noteId : String) (u : NoteUpdates) : Except String (SyncState × Note) :=
  match InMemoryStorage.getNoteById st.notes noteId with
  | none => .error "Note not found"
  | some ln =>
    let un := bumpedNote ln u now
    let st1 := { st with notes := InMemoryStorage.saveNote st.notes un "pending" }
    if isOnline then
      match res with
      | .ok sn => .ok ({ st1 with notes := InMemoryStorage.saveNote st1.notes sn "synced" }, sn)
      | .conflict409 _ =>
        .ok ({ st1 with notes := InMemoryStorage.markNoteConflicted st1.notes noteId }, un)
      | .netError => .ok (addToSyncQueue st1 "update" noteId un now, un)
    else .ok (addToSyncQueue st1 "update" noteId un now, un)

/-- Server answer to the immediate POST of `createNote`. -/
inductive PostResult where
  | ok (serverNote : Note)
  | netError

/-- `createNote(noteData)`: builds a fresh note with `version: 1`, saves it
locally as `pending` first, then (online) POSTs it; on success the server
copy replaces it as `synced`, otherwise the operation is enqueued. -/
def createNote (isOnline : Bool) (res : PostResult) (now : Nat) (genId : String)
    (st : SyncState) (d : NoteUpdates) : SyncState × Note :=
  let note : Note :=
    { id := genId, title := d.title.getD "Untitled", content := d.content.getD "",
      version := 1, createdAt := now, updatedAt := now }
  let st1 := { st with notes := InMemoryStorage.saveNote st.notes note "pending" }
  if isOnline then
    match res with
    | .ok sn => ({ st1 with notes := InMemoryStorage.saveNote st1.notes sn "synced" }, sn)
    | .netError => (addToSyncQueue st1 "create" note.id note now, note)
  else (addToSyncQueue st1 "create" note.id note now, note)

/-- `deleteNote(noteId)`: returns silently when no non-deleted local note
exists; otherwise soft-deletes locally, then DELETEs (marking synced on
success, enqueueing on failure) when online, or enqueues when offline. -/
def deleteNote (isOnline : Bool) (deleteOk : Bool) (now : Nat) (st : SyncState)
    (noteId : String) : Except String (SyncState × List Request) :=
  match InMemoryStorage.getNoteById st.notes noteId with
  | none => .ok (st, [])
  | some _ =>
    match InMemoryStorage.deleteNote st.notes noteId now with
    | none => .error "Note not found"
    | some notes1 =>
      let st1 := { st with notes := notes1 }
      if isOnline then
        if deleteOk then
          .ok ({ st1 with notes := InMemoryStorage.markNoteSynced st1.notes noteId },
            [Request.deleteReq noteId])
        else
          .ok (addToSyncQueue st1 "delete" noteId { id := noteId } now,
            [Request.deleteReq noteId])
      else .ok (addToSyncQueue st1 "delete" noteId { id := noteId } now, [])

/-- A registered sync listener: its registration id and the events on which
its callback throws. -/
structure Listener where
  lid : Nat
  failsOn : List String := []
  deriving DecidableEq

/-- One callback invocation; `.error` models a thrown exception. -/
def invoke (l : Listener) (ev : String) : Except String Nat :=
  if ev ∈ l.failsOn then .error "listener error" else .ok l.lid

/-- Delivery loop over the listener array.  With `catchErrors = true` each
invocation is wrapped as in the source (`try { callback(event, data) }
catch (error) { log }`) and the loop continues; with `catchErrors = false`
a thrown exception would escape and abort the loop.  Returns the ids
invoked, in order, and the escaped exception if any. -/
def runListeners (ls : List Listener) (ev : String) (catchErrors : Bool) :
    List Nat × Option String :=
  match ls with
  | [] => ([], none)
  | l :: rest =>
    match invoke l ev with
    | .ok _ =>
      let r := runListeners rest ev catchErrors
      (l.lid :: r.1, r.2)
    | .error e =>
      if catchErrors then
        let r := runListeners rest ev catchErrors
        (l.lid :: r.1, r.2)
      else ([l.lid], some e)

/-- `notifyListeners(event, data)`: `forEach` with a per-callback
try/catch. -/
def notifyListeners (ls : List Listener) (ev : String) : List Nat :=
  (runListeners ls ev true).1

end SyncService

/-! ## General lemmas about the embedded operations -/

theorem mem_insertLe {α : Type} (le : α → α → Bool) (x z : α) (l : List α) :
    z ∈ insertLe le x l ↔ z = x ∨ z ∈ l := by
  induction l with
  | nil => simp [insertLe]
  | cons y t ih =>
    rw [insertLe]
    by_cases h : le x y = true
    · rw [if_pos h]
      simp
    · rw [if_neg h]
      simp only [List.mem_cons, ih]
      tauto

theorem mem_sortLe {α : Type} (le : α → α → Bool) (z : α) (l : List α) :
    z ∈ sortLe le l ↔ z ∈ l := by
  induction l with
  | nil => simp [sortLe]
  | cons y t ih => simp [sortLe, mem_insertLe, ih]

theorem pairwise_insertLe_ts (x : SyncQueueItem) (l : List SyncQueueItem)
    (hl : l.Pairwise fun a b => a.timestamp ≤ b.timestamp) :
    (insertLe OfflineStorage.tsLe x l).Pairwise fun a b => a.timestamp ≤ b.timestamp := by
  induction l with
  | nil => simp [insertLe]
  | cons y t ih =>
    rcases List.pairwise_cons.mp hl with ⟨hy, ht⟩
    by_cases h : OfflineStorage.tsLe x y = true
    · have hxy : x.timestamp ≤ y.timestamp := by simpa [OfflineStorage.tsLe] using h
      rw [insertLe, if_pos h]
      refine List.pairwise_cons.mpr ⟨?_, hl⟩
      intro z hz
      rcases List.mem_cons.mp hz with rfl | hz'
      · exact hxy
      · exact le_trans hxy (hy z hz')
    · have hyx : y.timestamp ≤ x.timestamp := by
        have h' : ¬ x.timestamp ≤ y.timestamp := by simpa [OfflineStorage.tsLe] using h
        exact le_of_not_le h'
      rw [insertLe, if_neg h]
      refine List.pairwise_cons.mpr ⟨?_, ih ht⟩
      intro z hz
      rcases (mem_insertLe _ _ _ _).mp hz with rfl | hz'
      · exact hyx
      · exact hy z hz'

theorem pairwise_sortLe_ts (l : List SyncQueueItem) :
    (sortLe OfflineStorage.tsLe l).Pairwise fun a b => a.timestamp ≤ b.timestamp := by
  induction l with
  | nil => simp [sortLe]
  | cons y t ih => exact pairwise_insertLe_ts y _ ih

theorem status_of_mem_getSyncQueue (q : List SyncQueueItem) (jt : SyncQueueItem)
    (h : jt ∈ OfflineStorage.getSyncQueue q) : jt.status = "pending" := by
  unfold OfflineStorage.getSyncQueue at h
  rw [mem_sortLe] at h
  have := (List.mem_filter.mp h).2
  simpa using this

theorem map_status_set :
    ∀ (q : List SyncQueueItem) (idx : Nat) (it it' : SyncQueueItem),
      q[idx]? = some it → it'.status = it.status →
      (q.set idx it').map SyncQueueItem.status = q.map SyncQueueItem.status
  | [], _, _, _, h, _ => by simp at h
  | x :: t, 0, it, it', h, hs => by
    simp only [List.getElem?_cons_zero, Option.some.injEq] at h
    subst h
    simp [List.set, hs]
  | x :: t, idx + 1, it, it', h, hs => by
    simp only [List.getElem?_cons_succ] at h
    simp [List.set, map_status_set t idx it it' h hs]

theorem im_markSyncItemFailed_status (q : List SyncQueueItem) (idx rc now : Nat) :
    (InMemoryStorage.markSyncItemFailed q idx rc now).map SyncQueueItem.status =
      q.map SyncQueueItem.status := by
  unfold InMemoryStorage.markSyncItemFailed
  cases h : q[idx]? with
  | none => rfl
  | some it => exact map_status_set q idx it _ h rfl

theorem processItem_trace (accept : SyncQueueItem → Bool) (st : SyncService.SyncState)
    (it : SyncQueueItem) :
    (SyncService.processItem accept st it).2 = (SyncService.callOf it).toList := by
  rcases h : SyncService.callOf it with _ | r
  · simp [SyncService.processItem, h]
  · by_cases ha : accept it = true <;> simp [SyncService.processItem, h, ha]

theorem processItem_lastSync (accept : SyncQueueItem → Bool) (st : SyncService.SyncState)
    (it : SyncQueueItem) :
    (SyncService.processItem accept st it).1.lastSync = st.lastSync := by
  rcases h : SyncService.callOf it with _ | r
  · simp [SyncService.processItem, h]
  · by_cases ha : accept it = true <;> simp [SyncService.processItem, h, ha]

theorem processFold_trace (accept : SyncQueueItem → Bool) :
    ∀ (items : List SyncQueueItem) (p : SyncService.SyncState × List SyncService.Request),
      (SyncService.processFold accept p items).2 = p.2 ++ items.filterMap SyncService.callOf := by
  intro items
  induction items with
  | nil => intro p; simp [SyncService.processFold]
  | cons it rest ih =>
    intro p
    rw [SyncService.processFold]
    rw [ih]
    rcases h : SyncService.callOf it with _ | r <;>
      simp [processItem_trace, h, List.filterMap_cons]

theorem processFold_lastSync (accept : SyncQueueItem → Bool) :
    ∀ (items : List SyncQueueItem) (p : SyncService.SyncState × List SyncService.Request),
      (SyncService.processFold accept p items).1.lastSync = p.1.lastSync := by
  intro items
  induction items with
  | nil => intro p; rfl
  | cons it rest ih =>
    intro p
    rw [SyncService.processFold]
    rw [ih]
    exact processItem_lastSync accept p.1 it

theorem processSyncQueue_trace (accept : SyncQueueItem → Bool) (st : SyncService.SyncState) :
    (SyncService.processSyncQueue accept st).2 =
      (OfflineStorage.getSyncQueue st.queue).filterMap SyncService.callOf := by
  unfold SyncService.processSyncQueue
  rw [processFold_trace]
  simp

theorem processSyncQueue_lastSync (accept : SyncQueueItem → Bool) (st : SyncService.SyncState) :
    (SyncService.processSyncQueue accept st).1.lastSync = st.lastSync := by
  unfold SyncService.processSyncQueue
  rw [processFold_lastSync]

/-! ## Claim theorems -/

/-- C7: at most one full sync pass is in progress at a time — a pass
requested (by the timer path `performFullSync` or the manual `forcSync`)
while the service is already in the `Syncing` state performs no work: the
state is unchanged and no request is issued, and the pass is not queued for
later. -/
theorem c7_no_concurrent_sync (env : SyncService.SyncEnv) (st : SyncService.SyncState)
    (h : st.isSyncing = true) :
    SyncService.performFullSync env st = (st, []) ∧
    SyncService.forcSync env st = (st, []) := by
  have h1 : SyncService.performFullSync env st = (st, []) := by
    simp [SyncService.performFullSync, h]
  exact ⟨h1, h1⟩

/-- Witness for C7 at a concrete syncing state. -/
theorem c7_witness :
    ({ isSyncing := true } : SyncService.SyncState).isSyncing = true ∧
    SyncService.performFullSync {} { isSyncing := true } =
      ({ isSyncing := true }, []) :=
  ⟨rfl, (c7_no_concurrent_sync {} { isSyncing := true } rfl).1⟩

/-- C9: for every registered listener list and every event, the listeners
are invoked synchronously in registration order — the invocation trace is
exactly the registration list — and an exception thrown by any listener is
caught per-callback, so it never escapes nor prevents any later-registered
listener from being invoked. -/
theorem c9_notifyListeners_order_isolation (ls : List SyncService.Listener) (ev : String) :
    SyncService.notifyListeners ls ev = ls.map SyncService.Listener.lid ∧
    (SyncService.runListeners ls ev true).2 = none := by
  induction ls with
  | nil => exact ⟨rfl, rfl⟩
  | cons l rest ih =>
    have ih1 : (SyncService.runListeners rest ev true).1 =
        rest.map SyncService.Listener.lid := ih.1
    cases h : SyncService.invoke l ev with
    | ok v =>
      exact ⟨by simp [SyncService.notifyListeners, SyncService.runListeners, h, ih1],
             by simp [SyncService.runListeners, h, ih.2]⟩
    | error e =>
      exact ⟨by simp [SyncService.notifyListeners, SyncService.runListeners, h, ih1],
             by simp [SyncService.runListeners, h, ih.2]⟩

/-- C10: `deleteNote(id)` for an id with no existing (non-deleted) local
note returns without raising an error, leaves the whole state (entity
store and outbound queue) unchanged, and sends nothing to the server. -/
theorem c10_deleteNote_unknown (isOnline deleteOk : Bool) (now : Nat)
    (st : SyncService.SyncState) (noteId : String)
    (h : InMemoryStorage.getNoteById st.notes noteId = none) :
    SyncService.deleteNote isOnline deleteOk now st noteId = .ok (st, []) := by
  simp [SyncService.deleteNote, h]

/-- Witness for C10 at a concrete store whose only note with the id is
soft-deleted. -/
theorem c10_witness :
    InMemoryStorage.getNoteById [{ id := "n1", isDeleted := true }] "n1" = none ∧
    SyncService.deleteNote true true 3 { notes := [{ id := "n1", isDeleted := true }] } "n1" =
      .ok ({ notes := [{ id := "n1", isDeleted := true }] }, []) :=
  ⟨by decide, c10_deleteNote_unknown true true 3 _ "n1" (by decide)⟩

/-- C8 (counterexample): the claim says `getAllNotes()` excludes every note
carrying a deletion marker, including soft-deleted notes received from the
server during merge.  A server note whose soft-delete marker is the
`deletedAt` timestamp of the data model is merged verbatim by
`applySyncResponse`, and `getAllNotes` (which tests only the `isDeleted`
flag) still returns it. -/
theorem c8_counterexample :
    (InMemoryStorage.getAllNotes
        (SyncService.applySyncResponse ({} : SyncService.SyncState)
          { notes := [{ id := "n1", deletedAt := some 5 }] }).notes).map Note.deletedAt =
      [some 5] := by
  rfl

/-- C8 (amended): `InMemoryStorage.getAllNotes` excludes exactly the notes
whose `isDeleted` flag is set (locally deleted notes and live
`note:deleted` pushes), and the SQLite `OfflineStorage.getAllNotes`
excludes exactly the notes with a `deletedAt` timestamp; a merged server
note marked deleted only via `deletedAt` is not excluded by the in-memory
variant. -/
theorem c8_getAllNotes_deletion_markers (notes : List Note) :
    (∀ n ∈ InMemoryStorage.getAllNotes notes, n.isDeleted = false) ∧
    (∀ n ∈ OfflineStorage.getAllNotes notes false, n.deletedAt = none) := by
  constructor
  · intro n hn
    have := (List.mem_filter.mp hn).2
    simpa using this
  · intro n hn
    unfold OfflineStorage.getAllNotes at hn
    rw [mem_sortLe] at hn
    simp only [Bool.false_eq_true, if_false] at hn
    have := (List.mem_filter.mp hn).2
    simpa using this

/-- Witness for C8 (amended) at a concrete store. -/
theorem c8_witness :
    ({ id := "a" } : Note) ∈ InMemoryStorage.getAllNotes [{ id := "a" }] ∧
    ({ id := "a" } : Note).isDeleted = false :=
  ⟨by decide, (c8_getAllNotes_deletion_markers [{ id := "a" }]).1 _ (by decide)⟩

/-- C4 (counterexample): the claim says the first rejection of an
operation for an entity stops replay of that entity's remaining queued
operations for the pass.  With two queued updates for the same note `"a"`
and a server that rejects the first, the replay trace still contains both
calls: the second operation for the same entity is attempted. -/
theorem c4_counterexample :
    ((fun it : SyncQueueItem => it.id == 1)
        { id := 0, operation_type := "update", note_id := "a",
          data := { id := "a", version := 2 }, timestamp := 1 } = false) ∧
    (SyncService.processSyncQueue (fun it => it.id == 1)
        { queue := [{ id := 0, operation_type := "update", note_id := "a",
                      data := { id := "a", version := 2 }, timestamp := 1 },
                    { id := 1, operation_type := "update", note_id := "a",
                      data := { id := "a", version := 3 }, timestamp := 2 }] }).2 =
      [SyncService.Request.putNote "a" "" "" 1, SyncService.Request.putNote "a" "" "" 2] := by
  exact ⟨rfl, rfl⟩

/-- C4 (amended): queue replay drains the pending snapshot oldest first
(the drained items are sorted by enqueue timestamp) and attempts every
drained operation exactly once — the trace of attempted calls is the same
whatever the server rejects, so a rejection stops neither the same
entity's remaining operations nor other entities'. -/
theorem c4_queue_replay (accept : SyncQueueItem → Bool) (st : SyncService.SyncState) :
    (SyncService.processSyncQueue accept st).2 =
      (OfflineStorage.getSyncQueue st.queue).filterMap SyncService.callOf ∧
    (OfflineStorage.getSyncQueue st.queue).Pairwise
      (fun a b => a.timestamp ≤ b.timestamp) :=
  ⟨processSyncQueue_trace accept st, by
    unfold OfflineStorage.getSyncQueue
    exact pairwise_sortLe_ts _⟩

/-- C3 (counterexample): the claim says that once retries reach 3 the
operation becomes terminally `failed` and is never retried.  In the
`InMemoryStorage` wired to the service, a failure with the retry count
already at 3 merely bumps the count: the status stays `pending` and the
item is still returned by the next `getSyncQueue` drain. -/
theorem c3_counterexample :
    InMemoryStorage.getSyncQueue
        (InMemoryStorage.markSyncItemFailed
          [{ id := 0, operation_type := "update", note_id := "a", data := { id := "a" },
             timestamp := 1, retry_count := 3, status := "pending" }] 0 3 9) =
      [{ id := 0, operation_type := "update", note_id := "a", data := { id := "a" },
         timestamp := 1, retry_count := 4, status := "pending", lastAttempt := 9 }] := by
  rfl

/-- C3 (amended): in the SQLite `OfflineStorage`, `markSyncItemFailed`
increments the retry count and returns the item to `pending` while the
prior count is below 3, and marks it terminally `failed` once the prior
count has reached 3; only `pending` items are drained by `getSyncQueue`,
so a `failed` item is never retried.  The `InMemoryStorage` variant used
by the service never changes any status: it only bumps the retry count,
leaving every item eligible for retry. -/
theorem c3_retry_policy (q : List SyncQueueItem) (i rc : Nat) (it : SyncQueueItem)
    (hmem : it ∈ OfflineStorage.markSyncItemFailed q i rc) (hid : it.id = i) :
    (it.retry_count = rc + 1 ∧
      it.status = if 3 ≤ rc then "failed" else "pending") ∧
    (∀ jt ∈ OfflineStorage.getSyncQueue q, jt.status = "pending") ∧
    (∀ idx rc2 now, (InMemoryStorage.markSyncItemFailed q idx rc2 now).map SyncQueueItem.status
        = q.map SyncQueueItem.status) := by
  refine ⟨?_, fun jt hjt => status_of_mem_getSyncQueue q jt hjt,
    fun idx rc2 now => im_markSyncItemFailed_status q idx rc2 now⟩
  unfold OfflineStorage.markSyncItemFailed at hmem
  rcases List.mem_map.mp hmem with ⟨jt, hjq, hjt⟩
  by_cases h : jt.id = i
  · rw [if_pos h] at hjt
    rw [← hjt]
    exact ⟨rfl, rfl⟩
  · rw [if_neg h] at hjt
    rw [← hjt] at hid
    exact absurd hid h

theorem getNoteById_eq_some (l : List Note) (i : String) (n : Note)
    (h : InMemoryStorage.getNoteById l i = some n) :
    n.id = i ∧ n.isDeleted = false ∧ n ∈ l := by
  induction l with
  | nil => simp [InMemoryStorage.getNoteById] at h
  | cons m t ih =>
    rw [InMemoryStorage.getNoteById] at h
    by_cases hc : m.id = i ∧ m.isDeleted = false
    · rw [if_pos hc] at h
      obtain rfl : m = n := Option.some.inj h
      exact ⟨hc.1, hc.2, List.mem_cons_self m t⟩
    · rw [if_neg hc] at h
      rcases ih h with ⟨h1, h2, h3⟩
      exact ⟨h1, h2, List.mem_cons_of_mem m h3⟩

theorem getNoteById_saveRec (l : List Note) (a : Note) (hdel : a.isDeleted = false) :
    InMemoryStorage.getNoteById (InMemoryStorage.saveRec l a) a.id = some a := by
  induction l with
  | nil => simp [InMemoryStorage.saveRec, InMemoryStorage.getNoteById, hdel]
  | cons n t ih =>
    rw [InMemoryStorage.saveRec]
    by_cases h : n.id = a.id
    · rw [if_pos h]
      rw [InMemoryStorage.getNoteById, if_pos ⟨rfl, hdel⟩]
    · rw [if_neg h]
      rw [InMemoryStorage.getNoteById, if_neg (fun hc => h hc.1), ih]

theorem getNoteById_saveRec_ne (l : List Note) (b : Note) (i : String)
    (hne : ¬ b.id = i) :
    InMemoryStorage.getNoteById (InMemoryStorage.saveRec l b) i =
      InMemoryStorage.getNoteById l i := by
  induction l with
  | nil => simp [InMemoryStorage.saveRec, InMemoryStorage.getNoteById, hne]
  | cons n t ih =>
    rw [InMemoryStorage.saveRec]
    by_cases h : n.id = b.id
    · rw [if_pos h]
      have hni : ¬ n.id = i := by rw [h]; exact hne
      rw [InMemoryStorage.getNoteById, InMemoryStorage.getNoteById,
        if_neg (fun hc => hne hc.1), if_neg (fun hc => hni hc.1)]
    · rw [if_neg h]
      rw [InMemoryStorage.getNoteById, InMemoryStorage.getNoteById, ih]

theorem getNoteById_saveNote_ne (l : List Note) (b : Note) (s : String) (i : String)
    (hne : ¬ b.id = i) :
    InMemoryStorage.getNoteById (InMemoryStorage.saveNote l b s) i =
      InMemoryStorage.getNoteById l i :=
  getNoteById_saveRec_ne l _ i hne

theorem saveRec_idem (l : List Note) (a : Note) :
    InMemoryStorage.saveRec (InMemoryStorage.saveRec l a) a =
      InMemoryStorage.saveRec l a := by
  induction l with
  | nil => simp [InMemoryStorage.saveRec]
  | cons n t ih =>
    rw [InMemoryStorage.saveRec]
    by_cases h : n.id = a.id
    · rw [if_pos h]
      rw [InMemoryStorage.saveRec, if_pos rfl]
    · rw [if_neg h]
      rw [InMemoryStorage.saveRec, if_neg h, ih]

theorem saveRec_fixed_of_ne (l : List Note) (a b : Note) (hab : ¬ b.id = a.id)
    (hfix : InMemoryStorage.saveRec l a = l) :
    InMemoryStorage.saveRec (InMemoryStorage.saveRec l b) a =
      InMemoryStorage.saveRec l b := by
  induction l with
  | nil =>
    exfalso
    simp [InMemoryStorage.saveRec] at hfix
  | cons n t ih =>
    rw [InMemoryStorage.saveRec] at hfix
    by_cases h1 : n.id = a.id
    · rw [if_pos h1] at hfix
      have ha : a = n := by injection hfix with ha' _
      have hnb : ¬ n.id = b.id := fun hh => hab (by rw [← hh]; exact h1)
      rw [InMemoryStorage.saveRec, if_neg hnb]
      rw [InMemoryStorage.saveRec, if_pos h1]
      rw [ha]
    · rw [if_neg h1] at hfix
      have hta : InMemoryStorage.saveRec t a = t := by injection hfix with _ ht'
      by_cases h2 : n.id = b.id
      · rw [InMemoryStorage.saveRec, if_pos h2]
        rw [InMemoryStorage.saveRec, if_neg hab]
        rw [hta]
      · rw [InMemoryStorage.saveRec, if_neg h2]
        rw [InMemoryStorage.saveRec, if_neg h1]
        rw [ih hta]

theorem saveNote_idem (l : List Note) (a : Note) (s : String) :
    InMemoryStorage.saveNote (InMemoryStorage.saveNote l a s) a s =
      InMemoryStorage.saveNote l a s :=
  saveRec_idem l { a with localOnly := s == "pending" }

theorem applyStep_saveNote (l : List Note) (a : Note) :
    SyncService.applyStep (InMemoryStorage.saveNote l a "synced") a =
      InMemoryStorage.saveNote l a "synced" := by
  rcases h : InMemoryStorage.getNoteById (InMemoryStorage.saveNote l a "synced") a.id
    with _ | ln
  · simp [SyncService.applyStep, h, saveNote_idem]
  · by_cases hp : ln.syncStatus = some "pending"
    · simp [SyncService.applyStep, h, hp]
    · simp [SyncService.applyStep, h, hp, saveNote_idem]

theorem applyStep_idem (l : List Note) (a : Note) :
    SyncService.applyStep (SyncService.applyStep l a) a = SyncService.applyStep l a := by
  rcases h : InMemoryStorage.getNoteById l a.id with _ | ln
  · have h1 : SyncService.applyStep l a = InMemoryStorage.saveNote l a "synced" := by
      simp [SyncService.applyStep, h]
    rw [h1]
    exact applyStep_saveNote l a
  · by_cases hp : ln.syncStatus = some "pending"
    · have h1 : SyncService.applyStep l a = l := by simp [SyncService.applyStep, h, hp]
      rw [h1]
      exact h1
    · have h1 : SyncService.applyStep l a = InMemoryStorage.saveNote l a "synced" := by
        simp [SyncService.applyStep, h, hp]
      rw [h1]
      exact applyStep_saveNote l a

theorem applyStep_fixed_saveNote (l : List Note) (a b : Note) (hab : ¬ b.id = a.id)
    (hfix : SyncService.applyStep l a = l) :
    SyncService.applyStep (InMemoryStorage.saveNote l b "synced") a =
      InMemoryStorage.saveNote l b "synced" := by
  have hlook : InMemoryStorage.getNoteById (InMemoryStorage.saveNote l b "synced") a.id =
      InMemoryStorage.getNoteById l a.id :=
    getNoteById_saveNote_ne l b "synced" a.id hab
  rcases h : InMemoryStorage.getNoteById l a.id with _ | ln
  · have hfl : InMemoryStorage.saveNote l a "synced" = l := by
      have hcopy := hfix
      simp [SyncService.applyStep, h] at hcopy
      exact hcopy
    have hg : InMemoryStorage.saveNote (InMemoryStorage.saveNote l b "synced") a "synced" =
        InMemoryStorage.saveNote l b "synced" :=
      saveRec_fixed_of_ne l _ _ hab hfl
    simp [SyncService.applyStep, hlook, h, hg]
  · by_cases hp : ln.syncStatus = some "pending"
    · simp [SyncService.applyStep, hlook, h, hp]
    · have hfl : InMemoryStorage.saveNote l a "synced" = l := by
        have hcopy := hfix
        simp [SyncService.applyStep, h, hp] at hcopy
        exact hcopy
      have hg : InMemoryStorage.saveNote (InMemoryStorage.saveNote l b "synced") a "synced" =
          InMemoryStorage.saveNote l b "synced" :=
        saveRec_fixed_of_ne l _ _ hab hfl
      simp [SyncService.applyStep, hlook, h, hp, hg]

theorem applyStep_fixed_of_ne (l : List Note) (a b : Note) (hab : ¬ b.id = a.id)
    (hfix : SyncService.applyStep l a = l) :
    SyncService.applyStep (SyncService.applyStep l b) a = SyncService.applyStep l b := by
  rcases hb : InMemoryStorage.getNoteById l b.id with _ | lnb
  · have h1 : SyncService.applyStep l b = InMemoryStorage.saveNote l b "synced" := by
      simp [SyncService.applyStep, hb]
    rw [h1]
    exact applyStep_fixed_saveNote l a b hab hfix
  · by_cases hp : lnb.syncStatus = some "pending"
    · have h1 : SyncService.applyStep l b = l := by simp [SyncService.applyStep, hb, hp]
      rw [h1]
      exact hfix
    · have h1 : SyncService.applyStep l b = InMemoryStorage.saveNote l b "synced" := by
        simp [SyncService.applyStep, hb, hp]
      rw [h1]
      exact applyStep_fixed_saveNote l a b hab hfix

theorem applyNotes_cons (l : List Note) (a : Note) (t : List Note) :
    SyncService.applyNotes l (a :: t) =
      SyncService.applyNotes (SyncService.applyStep l a) t := rfl

theorem applyNotes_fixed (ns : List Note) :
    ∀ l : List Note, (∀ a ∈ ns, SyncService.applyStep l a = l) →
      SyncService.applyNotes l ns = l := by
  induction ns with
  | nil => intro l _; rfl
  | cons a t ih =>
    intro l h
    rw [applyNotes_cons, h a (List.mem_cons_self a t)]
    exact ih l (fun b hb => h b (List.mem_cons_of_mem a hb))

theorem applyStep_fixed_applyNotes (ms : List Note) (a : Note) :
    ∀ l : List Note, (∀ b ∈ ms, ¬ b.id = a.id) → SyncService.applyStep l a = l →
      SyncService.applyStep (SyncService.applyNotes l ms) a = SyncService.applyNotes l ms := by
  induction ms with
  | nil => intro l _ hfix; exact hfix
  | cons b t ih =>
    intro l hne hfix
    rw [applyNotes_cons]
    exact ih (SyncService.applyStep l b) (fun c hc => hne c (List.mem_cons_of_mem b hc))
      (applyStep_fixed_of_ne l a b (hne b (List.mem_cons_self b t)) hfix)

theorem applyNotes_all_fixed (ns : List Note) (hnd : (ns.map Note.id).Nodup) :
    ∀ l : List Note, ∀ a ∈ ns,
      SyncService.applyStep (SyncService.applyNotes l ns) a = SyncService.applyNotes l ns := by
  induction ns with
  | nil => intro l a ha; exact absurd ha (List.not_mem_nil a)
  | cons x t ih =>
    rw [List.map_cons, List.nodup_cons] at hnd
    intro l a ha
    rcases List.mem_cons.mp ha with rfl | hat
    · rw [applyNotes_cons]
      refine applyStep_fixed_applyNotes t a (SyncService.applyStep l a) ?_ (applyStep_idem l a)
      intro b hb hbid
      exact hnd.1 (hbid ▸ List.mem_map_of_mem Note.id hb)
    · rw [applyNotes_cons]
      exact ih hnd.2 (SyncService.applyStep l x) a hat

theorem applyNotes_idem (l : List Note) (ns : List Note) (hnd : (ns.map Note.id).Nodup) :
    SyncService.applyNotes (SyncService.applyNotes l ns) ns =
      SyncService.applyNotes l ns :=
  applyNotes_fixed ns _ (fun a ha => applyNotes_all_fixed ns hnd l a ha)

theorem getNoteById_markNoteConflicted (l : List Note) (i : String) (ln : Note)
    (hnd : (l.map Note.id).Nodup)
    (hf : InMemoryStorage.getNoteById l i = some ln) :
    InMemoryStorage.getNoteById (InMemoryStorage.markNoteConflicted l i) i =
      some { ln with hasConflict := true } := by
  induction l with
  | nil => simp [InMemoryStorage.getNoteById] at hf
  | cons n t ih =>
    rw [List.map_cons, List.nodup_cons] at hnd
    rw [InMemoryStorage.getNoteById] at hf
    by_cases hc : n.id = i ∧ n.isDeleted = false
    · rw [if_pos hc] at hf
      obtain rfl : n = ln := Option.some.inj hf
      rw [InMemoryStorage.markNoteConflicted, if_pos hc.1]
      rw [InMemoryStorage.getNoteById, if_pos (⟨hc.1, hc.2⟩ :
        ({ n with hasConflict := true } : Note).id = i ∧
          ({ n with hasConflict := true } : Note).isDeleted = false)]
    · rw [if_neg hc] at hf
      by_cases hni : n.id = i
      · exfalso
        rcases getNoteById_eq_some t i ln hf with ⟨hl1, _, hl3⟩
        refine hnd.1 ?_
        rw [hni, ← hl1]
        exact List.mem_map_of_mem Note.id hl3
      · rw [InMemoryStorage.markNoteConflicted, if_neg hni]
        rw [InMemoryStorage.getNoteById, if_neg (fun hcc => hni hcc.1)]
        exact ih hnd.2 hf

/-- C1 (counterexample): the claim says a remote update arriving for a
`pending` local note via a delta-sync response transitions the note to the
conflict state.  `applySyncResponse` merely skips such a note: the store
is unchanged — the pending payload survives, but no conflict is ever
marked (`hasConflict` stays `false`). -/
theorem c1_counterexample :
    SyncService.applySyncResponse
        { notes := [{ id := "n1", title := "local", content := "c", version := 2,
                      syncStatus := some "pending", hasConflict := false }] }
        { notes := [{ id := "n1", title := "remote", content := "r", version := 3 }],
          syncTime := some 9 } =
      { notes := [{ id := "n1", title := "local", content := "c", version := 2,
                    syncStatus := some "pending", hasConflict := false }],
        lastSync := 9 } := by
  rfl

/-- C1 (amended): a live push (`handleRemoteNoteUpdated`) for a `pending`
local note diverts to the conflict path: the stored note afterwards is the
local copy with only `hasConflict` set — title, content and version are
untouched, and the remote payload is not written; a delta-sync response
(`applyStep`) leaves a `pending` local note entirely unchanged (payload
preserved, but no conflict marked). -/
theorem c1_pending_remote_update (notes : List Note) (remote ln : Note)
    (hnd : (notes.map Note.id).Nodup)
    (hf : InMemoryStorage.getNoteById notes remote.id = some ln)
    (hp : ln.syncStatus = some "pending") :
    SyncService.handleRemoteNoteUpdated notes remote =
      InMemoryStorage.markNoteConflicted notes remote.id ∧
    InMemoryStorage.getNoteById (SyncService.handleRemoteNoteUpdated notes remote) remote.id =
      some { ln with hasConflict := true } ∧
    SyncService.applyStep notes remote = notes := by
  have h1 : SyncService.handleRemoteNoteUpdated notes remote =
      InMemoryStorage.markNoteConflicted notes remote.id := by
    simp [SyncService.handleRemoteNoteUpdated, hf, hp]
  refine ⟨h1, ?_, by simp [SyncService.applyStep, hf, hp]⟩
  rw [h1]
  exact getNoteById_markNoteConflicted notes remote.id ln hnd hf

/-- Witness for C1 (amended) at a concrete pending note and remote
update. -/
theorem c1_witness :
    SyncService.handleRemoteNoteUpdated
        [{ id := "n1", title := "t", version := 2, syncStatus := some "pending" }]
        { id := "n1", title := "r", version := 5 } =
      InMemoryStorage.markNoteConflicted
        [{ id := "n1", title := "t", version := 2, syncStatus := some "pending" }] "n1" ∧
    InMemoryStorage.getNoteById
        (SyncService.handleRemoteNoteUpdated
          [{ id := "n1", title := "t", version := 2, syncStatus := some "pending" }]
          { id := "n1", title := "r", version := 5 }) "n1" =
      some { id := "n1", title := "t", version := 2, syncStatus := some "pending",
             hasConflict := true } ∧
    SyncService.applyStep
        [{ id := "n1", title := "t", version := 2, syncStatus := some "pending" }]
        { id := "n1", title := "r", version := 5 } =
      [{ id := "n1", title := "t", version := 2, syncStatus := some "pending" }] :=
  c1_pending_remote_update
    [{ id := "n1", title := "t", version := 2, syncStatus := some "pending" }]
    { id := "n1", title := "r", version := 5 }
    { id := "n1", title := "t", version := 2, syncStatus := some "pending" }
    (by decide) (by decide) rfl

/-- C2 (counterexample): the claim says the checkpoint advances to the
server-reported sync time only when queue replay, the delta request and
the merge all completed.  In the socket path, `performFullSync` merely
emits the sync request and immediately advances the checkpoint to the
local clock: here the checkpoint moves from 2 to 5 although no
sync-response was merged in the pass (the request trace contains only the
emitted `sync-request`). -/
theorem c2_counterexample :
    SyncService.performFullSync { socketConnected := true, now := 5 } { lastSync := 2 } =
      ({ lastSync := 5 }, [SyncService.Request.syncRequest 2]) := by
  rfl

/-- C2 (amended): `performFullSync` leaves the checkpoint unchanged when
the pass is skipped (offline or already syncing) or when the HTTP delta
request throws; in every other case — including the socket path, where the
merge has not yet happened — it advances the checkpoint to the local
clock, not to a server-reported time.  A server-reported sync time reaches
the checkpoint only through `applySyncResponse`, which stores `syncTime`
whenever one is present. -/
theorem c2_checkpoint_policy (env : SyncService.SyncEnv) (st : SyncService.SyncState) :
    (SyncService.performFullSync env st).1.lastSync =
      (if !st.isOnline || st.isSyncing then st.lastSync
       else
        match env.httpResult with
        | .ok _ => env.now
        | .error _ => if env.socketConnected then env.now else st.lastSync) ∧
    ∀ d : SyncService.SyncData,
      (SyncService.applySyncResponse st d).lastSync =
        match d.syncTime with
        | some t => t
        | none => st.lastSync := by
  constructor
  · by_cases hg : (!st.isOnline || st.isSyncing) = true
    · simp [SyncService.performFullSync, hg]
    · rcases hh : env.httpResult with e | ns
      · by_cases hs : env.socketConnected = true
        · simp [SyncService.performFullSync, hg, hs, hh]
        · simp [SyncService.performFullSync, hg, hs, hh, SyncService.performHttpSync,
            processSyncQueue_lastSync]
      · by_cases hs : env.socketConnected = true
        · simp [SyncService.performFullSync, hg, hs, hh]
        · simp [SyncService.performFullSync, hg, hs, hh, SyncService.performHttpSync]
  · intro d
    rfl

/-- C5 (counterexample): the claim says a local note's `version` never
exceeds the last server-confirmed version.  Starting from a store whose
only note is the server-confirmed copy at version 1, an offline
`updateNote` (no server interaction at all) stores a pending copy at
version 2. -/
theorem c5_counterexample :
    (SyncService.updateNote false .netError 7
        { notes := [{ id := "n1", title := "t", version := 1,
                      syncStatus := some "synced", localOnly := false }] }
        "n1" { title := some "X" }).map
      (fun r => ((InMemoryStorage.getNoteById r.1.notes "n1").map Note.version,
                 (InMemoryStorage.getNoteById r.1.notes "n1").map Note.localOnly)) =
      .ok (some 2, some true) := by
  rfl

/-- C5 (amended): `updateNote` is an optimistic write — before any server
acknowledgement it stores the updated copy with `version` exactly one
above the stored version, marked `pending` (`localOnly`), and (offline)
enqueues the operation; the local version therefore exceeds the last
server-confirmed version by one until the acknowledgement arrives. -/
theorem c5_optimistic_version_bump (res : SyncService.PutResult) (now : Nat)
    (st : SyncService.SyncState) (noteId : String) (u : SyncService.NoteUpdates) (ln : Note)
    (hf : InMemoryStorage.getNoteById st.notes noteId = some ln) :
    ∃ st2 un,
      SyncService.updateNote false res now st noteId u = .ok (st2, un) ∧
      un.version = ln.version + 1 ∧
      InMemoryStorage.getNoteById st2.notes noteId = some { un with localOnly := true } ∧
      st2.queue = st.queue ++
        [{ id := st.nextQueueId, operation_type := "update", note_id := noteId,
           data := un, timestamp := now }] := by
  rcases getNoteById_eq_some st.notes noteId ln hf with ⟨hid, hdel, _⟩
  subst hid
  refine
    ⟨SyncService.addToSyncQueue
        { st with
          notes :=
            InMemoryStorage.saveNote st.notes (SyncService.bumpedNote ln u now) "pending" }
        "update" ln.id (SyncService.bumpedNote ln u now) now,
      SyncService.bumpedNote ln u now, ?_, rfl, ?_, rfl⟩
  · unfold SyncService.updateNote
    rw [hf]
    rfl
  · exact getNoteById_saveRec st.notes _ hdel

/-- Witness for C5 (amended) at a concrete store, offline update. -/
theorem c5_witness :
    ∃ st2 un,
      SyncService.updateNote false .netError 7
          { notes := [{ id := "n1", title := "t", version := 1 }] } "n1"
          { title := some "X" } = .ok (st2, un) ∧
      un.version = ({ id := "n1", title := "t", version := 1 } : Note).version + 1 ∧
      InMemoryStorage.getNoteById st2.notes "n1" = some { un with localOnly := true } ∧
      st2.queue = [] ++
        [{ id := 0, operation_type := "update", note_id := "n1",
           data := un, timestamp := 7 }] :=
  c5_optimistic_version_bump .netError 7
    { notes := [{ id := "n1", title := "t", version := 1 }] } "n1"
    { title := some "X" } { id := "n1", title := "t", version := 1 } (by decide)

/-- C6: applying the same delta-sync response (whose notes carry pairwise
distinct ids) twice yields exactly the same client state as applying it
once — in particular no duplicate store entries appear and no version
regresses on the second application. -/
theorem c6_applySyncResponse_idempotent (st : SyncService.SyncState)
    (d : SyncService.SyncData) (hnd : (d.notes.map Note.id).Nodup) :
    SyncService.applySyncResponse (SyncService.applySyncResponse st d) d =
      SyncService.applySyncResponse st d := by
  have hcore := applyNotes_idem st.notes d.notes hnd
  unfold SyncService.applySyncResponse
  cases hts : d.syncTime with
  | none => simp [hcore]
  | some t => simp [hcore]

/-- Witness for C6 at a concrete two-note response. -/
theorem c6_witness :
    ((([{ id := "a", version := 1 }, { id := "b", version := 3 }] : List Note).map
        Note.id).Nodup) ∧
    SyncService.applySyncResponse
        (SyncService.applySyncResponse {}
          { notes := [{ id := "a", version := 1 }, { id := "b", version := 3 }],
            syncTime := some 4 })
        { notes := [{ id := "a", version := 1 }, { id := "b", version := 3 }],
          syncTime := some 4 } =
      SyncService.applySyncResponse {}
        { notes := [{ id := "a", version := 1 }, { id := "b", version := 3 }],
          syncTime := some 4 } :=
  ⟨by decide, c6_applySyncResponse_idempotent {} _ (by decide)⟩

/-- Witness for C3 (amended) at a concrete one-item queue, first
failure. -/
theorem c3_witness :
    ({ id := 0, operation_type := "update", note_id := "a", data := { id := "a" },
       timestamp := 1, retry_count := 1, status := "pending" } : SyncQueueItem).retry_count
        = 0 + 1 ∧
    ({ id := 0, operation_type := "update", note_id := "a", data := { id := "a" },
       timestamp := 1, retry_count := 1, status := "pending" } : SyncQueueItem).status
        = if 3 ≤ 0 then "failed" else "pending" :=
  (c3_retry_policy
    [{ id := 0, operation_type := "update", note_id := "a", data := { id := "a" },
       timestamp := 1 }] 0 0 _ (by decide) rfl).1

end NoteApp
